import Mathlib

/-!
Shallow embedding of the material-planning core of the copper-rail
inventory application (TypeScript sources: the allocation engine in
`utils/optimizer.ts`, the live-pool mutation `cutRail` in
`context/InventoryContext.tsx`, and the work-order state machine in
`context/WorkOrderContext.tsx`).

Modelling conventions:
* All lengths are integers (`Int`), mirroring the JS numbers used for
  millimetre lengths (the spec fixes them as integers; `Int` keeps the
  JS behaviour on subtraction, which can go negative).
* Entity ids are modelled as `Nat`.  The source generates fresh ids with
  a UUID generator that never repeats an existing id; we model this by
  threading an id counter that starts strictly above every id occurring
  in the input, which gives the same freshness guarantee.
* `Date` timestamps are modelled as `Nat` values supplied by the caller
  (`now` parameters); the engine itself stores `0` where the source calls
  `new Date()` in a position no claim reads.
* JS in-place array mutation is modelled by explicit state passing: the
  allocation loop's state carries both the caller's pool and the working
  copy, so frame properties are expressible.
-/

/-- Copper rail entity (`CopperRail` in `types/index.ts`). -/
structure Rail where
  id : Nat
  length : Int
  width : Int
  thickness : Int
  isRemainder : Bool
  originalRailId : Option Nat
  createdAt : Nat
  notes : Option String
  deriving DecidableEq, Repr

/-- Cross-section type of a rail (`RailType` in `types/index.ts`). -/
structure RailType where
  width : Int
  thickness : Int
  label : String
  deriving DecidableEq, Repr

/-- One required piece of a plan (`CutPiece` in `types/index.ts`). -/
structure CutPiece where
  id : Nat
  length : Int
  quantity : Nat
  purpose : String
  railType : RailType
  deriving DecidableEq, Repr

/-- A fusion-box plan (`FusionBoxPlan` in `types/index.ts`); fields not
read by the engine (`description`, timestamps) are omitted. -/
structure FusionBoxPlan where
  id : Nat
  name : String
  requiredPieces : List CutPiece
  deriving DecidableEq, Repr

/-- Output record of the allocation engine for one unit piece
(`CutSuggestion` in `types/index.ts`). -/
structure CutSuggestion where
  sourceRail : Rail
  piece : CutPiece
  remainderLength : Int
  waste : Int
  isOptimal : Bool
  deriving DecidableEq, Repr

/-- Result of one allocation run (`MaterialPlan` in `types/index.ts`). -/
structure MaterialPlan where
  plan : FusionBoxPlan
  suggestions : List CutSuggestion
  totalWaste : Int
  usedRemainders : Nat
  newRailsNeeded : Nat
  deriving DecidableEq, Repr

/-- Minimum usable remainder length in mm (`MIN_USABLE_LENGTH`). -/
def MIN_USABLE_LENGTH : Int := 50

/-- Standard purchasable rail lengths in mm (`STANDARD_RAIL_LENGTHS`). -/
def STANDARD_RAIL_LENGTHS : List Int := [1000, 2000, 3000, 6000]

/-- The compatibility filter of `findBestRailForPiece`: rails whose
cross-section matches the piece's rail type and whose length suffices. -/
def compatibleRails (inventory : List Rail) (piece : CutPiece) : List Rail :=
  inventory.filter (fun rail =>
    rail.width == piece.railType.width &&
    rail.thickness == piece.railType.thickness &&
    decide (piece.length ≤ rail.length))

/-- Strict "comes first" order of the source's sort comparator in
`findBestRailForPiece`: remainders before non-remainders, then shorter
rails first. -/
def railBetter (a b : Rail) : Bool :=
  if a.isRemainder != b.isRemainder then a.isRemainder
  else decide (a.length < b.length)

/-- Fold selecting the earliest rail minimal for the comparator order. -/
def pickBest (acc : Rail) (rs : List Rail) : Rail :=
  rs.foldl (fun best c => if railBetter c best then c else best) acc

/-- Head of the source's stable sort of the compatible rails: the
earliest rail that is minimal for the comparator order (a JS stable sort
followed by taking element 0 yields exactly this rail). -/
def selectBestRail : List Rail → Option Rail
  | [] => none
  | r :: rs => some (pickBest r rs)

/-- The allocation engine's single-piece search (`findBestRailForPiece`
in `utils/optimizer.ts`). -/
def findBestRailForPiece (inventory : List Rail) (piece : CutPiece) :
    Option CutSuggestion :=
  match selectBestRail (compatibleRails inventory piece) with
  | none => none
  | some bestRail =>
    let remainderLength : Int := bestRail.length - piece.length
    let waste : Int := if remainderLength < MIN_USABLE_LENGTH then remainderLength else 0
    some {
      sourceRail := bestRail
      piece := piece
      remainderLength := if MIN_USABLE_LENGTH ≤ remainderLength then remainderLength else 0
      waste := waste
      isOptimal := bestRail.isRemainder || decide (remainderLength < MIN_USABLE_LENGTH) }

/-- First standard length that accommodates the required length, falling
back to the largest standard length
(`findSmallestSufficientStandardRail` in `utils/optimizer.ts`). -/
def findSmallestSufficientStandardRail (requiredLength : Int) : Int :=
  match STANDARD_RAIL_LENGTHS.find? (fun s => decide (requiredLength ≤ s)) with
  | some s => s
  | none => STANDARD_RAIL_LENGTHS.getLastD 0

/-- Element-wise copy used to build the working inventory
(the `{...rail}` object spread in `generateMaterialPlan`). -/
def copyRail (r : Rail) : Rail :=
  { id := r.id, length := r.length, width := r.width, thickness := r.thickness,
    isRemainder := r.isRemainder, originalRailId := r.originalRailId,
    createdAt := r.createdAt, notes := r.notes }

/-- Expansion of the plan's pieces by quantity into unit pieces, each
with a fresh id (the nested push loop of `generateMaterialPlan`).
Returns the expanded list and the next unused id. -/
def expandPieces : List CutPiece → Nat → List CutPiece × Nat
  | [], nid => ([], nid)
  | p :: rest, nid =>
    let units := (List.range p.quantity).map
      (fun k => { p with quantity := 1, id := nid + k })
    let next := expandPieces rest (nid + p.quantity)
    (units ++ next.1, next.2)

/-- Stable descending insertion used to model the source's stable
`sort((a, b) => b.length - a.length)` over the expanded pieces. -/
def insertPieceDesc (p : CutPiece) : List CutPiece → List CutPiece
  | [] => [p]
  | q :: qs => if q.length < p.length then p :: q :: qs else q :: insertPieceDesc p qs

/-- Stable descending sort by piece length (longest first), matching the
JS stable sort in `generateMaterialPlan`. -/
def sortPiecesDesc (l : List CutPiece) : List CutPiece :=
  l.foldl (fun acc p => insertPieceDesc p acc) []

/-- State threaded through the allocation loop of `generateMaterialPlan`.
`callerInventory` is the caller's pool: the source never writes to it
(every mutation targets `workingInventory`), and carrying it through the
loop lets that frame property be stated. -/
structure AllocState where
  callerInventory : List Rail
  workingInventory : List Rail
  suggestions : List CutSuggestion
  totalWaste : Int
  usedRemainders : Nat
  newRailsNeeded : Nat
  nextId : Nat
  deriving DecidableEq, Repr

/-- Working-pool update of the found-suggestion branch of
`generateMaterialPlan`: replace the consumed rail in place by its usable
remainder (object spread keeps the id), or splice it out entirely. -/
def consumeRail (wi : List Rail) (s : CutSuggestion) : List Rail :=
  match wi.findIdx? (fun r => r.id == s.sourceRail.id) with
  | none => wi
  | some i =>
    if MIN_USABLE_LENGTH ≤ s.remainderLength then
      match wi[i]? with
      | none => wi
      | some old =>
        wi.set i { old with
          length := s.remainderLength
          isRemainder := true
          originalRailId := some s.sourceRail.id }
    else
      wi.eraseIdx i

/-- The new standard-length rail synthesized by `generateMaterialPlan`
when the working pool has no compatible rail for the piece. -/
def synthRail (nid : Nat) (piece : CutPiece) : Rail :=
  { id := nid
    length := findSmallestSufficientStandardRail piece.length
    width := piece.railType.width
    thickness := piece.railType.thickness
    isRemainder := false
    originalRailId := none
    createdAt := 0
    notes := none }

/-- The suggestion pushed by the new-rail branch of
`generateMaterialPlan` (note the hard-coded `isOptimal: false`). -/
def synthSuggestion (nid : Nat) (piece : CutPiece) : CutSuggestion :=
  let standardLength := findSmallestSufficientStandardRail piece.length
  let remainderLength : Int := standardLength - piece.length
  { sourceRail := synthRail nid piece
    piece := piece
    remainderLength := if MIN_USABLE_LENGTH ≤ remainderLength then remainderLength else 0
    waste := if remainderLength < MIN_USABLE_LENGTH then remainderLength else 0
    isOptimal := false }

/-- One iteration of the allocation loop of `generateMaterialPlan`:
either allocate the piece from the working pool (updating the pool), or
synthesize a new standard-length rail. -/
def allocStep (st : AllocState) (piece : CutPiece) : AllocState :=
  match findBestRailForPiece st.workingInventory piece with
  | some suggestion =>
    { st with
      workingInventory := consumeRail st.workingInventory suggestion
      usedRemainders :=
        if suggestion.sourceRail.isRemainder then st.usedRemainders + 1
        else st.usedRemainders
      totalWaste := st.totalWaste + suggestion.waste
      suggestions := st.suggestions ++ [suggestion] }
  | none =>
    let standardLength := findSmallestSufficientStandardRail piece.length
    let remainderLength : Int := standardLength - piece.length
    let waste : Int := if remainderLength < MIN_USABLE_LENGTH then remainderLength else 0
    { st with
      suggestions := st.suggestions ++ [synthSuggestion st.nextId piece]
      workingInventory :=
        if MIN_USABLE_LENGTH ≤ remainderLength then
          st.workingInventory ++
            [{ synthRail st.nextId piece with
                length := remainderLength, isRemainder := true,
                originalRailId := some st.nextId }]
        else st.workingInventory
      newRailsNeeded := st.newRailsNeeded + 1
      totalWaste := st.totalWaste + waste
      nextId := st.nextId + 1 }

/-- First id strictly above every id in the pool; models the source's
globally-unique id generator for rails synthesized during planning. -/
def freshIdAbove (inventory : List Rail) : Nat :=
  (inventory.map Rail.id).foldl Nat.max 0 + 1

/-- Full allocation loop state of `generateMaterialPlan`: expand and
sort the pieces, build the working copy, then fold the loop body. -/
def generateMaterialPlanState (plan : FusionBoxPlan) (inventory : List Rail) :
    AllocState :=
  let expanded := expandPieces plan.requiredPieces (freshIdAbove inventory)
  let pieces := sortPiecesDesc expanded.1
  let st0 : AllocState :=
    { callerInventory := inventory
      workingInventory := inventory.map copyRail
      suggestions := []
      totalWaste := 0
      usedRemainders := 0
      newRailsNeeded := 0
      nextId := expanded.2 }
  pieces.foldl allocStep st0

/-- The allocation engine's whole-plan entry point
(`generateMaterialPlan` in `utils/optimizer.ts`). -/
def generateMaterialPlan (plan : FusionBoxPlan) (inventory : List Rail) :
    MaterialPlan :=
  let st := generateMaterialPlanState plan inventory
  { plan := plan
    suggestions := st.suggestions
    totalWaste := st.totalWaste
    usedRemainders := st.usedRemainders
    newRailsNeeded := st.newRailsNeeded }

/-- Note text attached to a remainder created by `cutRail`
("Remainder from cutting NNNmm[ for PURPOSE]"). -/
def cutRailNote (cutLength : Int) (purpose : Option String) : String :=
  "Remainder from cutting " ++ toString cutLength ++ "mm" ++
    (match purpose with
     | some p => " for " ++ p
     | none => "")

/-- The remainder rail created by a successful partial cut in `cutRail`. -/
def mkCutRemainder (freshId now : Nat) (rail : Rail) (cutLength : Int)
    (purpose : Option String) : Rail :=
  { id := freshId
    length := rail.length - cutLength
    width := rail.width
    thickness := rail.thickness
    isRemainder := true
    originalRailId := some rail.id
    createdAt := now
    notes := some (cutRailNote cutLength purpose) }

/-- Live-pool cut primitive (`cutRail` in `context/InventoryContext.tsx`).
Returns the pool after the call together with the returned remainder.
The source looks the rail up by id, rejects only `rail.length < cutLength`
(or a missing rail), replaces a partially consumed rail by its remainder
(filter out the old id, append the remainder), and removes a fully
consumed rail via `removeRail` (the same id filter). -/
def cutRail (freshId now : Nat) (rails : List Rail) (railId : Nat)
    (cutLength : Int) (purpose : Option String) : List Rail × Option Rail :=
  match rails.find? (fun r => r.id == railId) with
  | none => (rails, none)
  | some rail =>
    if rail.length < cutLength then (rails, none)
    else
      let remainderLength := rail.length - cutLength
      if 0 < remainderLength then
        let remainder := mkCutRemainder freshId now rail cutLength purpose
        (rails.filter (fun r => r.id != railId) ++ [remainder], some remainder)
      else
        (rails.filter (fun r => r.id != railId), none)

/-- Execution phase of a work order (`WorkOrderPhase`). -/
inductive WorkOrderPhase where
  | gathering
  | cutting
  | returning
  | completed
  deriving DecidableEq, BEq, Repr

/-- Lifecycle status of a work order (`WorkOrderStatus`). -/
inductive WorkOrderStatus where
  | draft
  | inProgress
  | completed
  | cancelled
  deriving DecidableEq, BEq, Repr

/-- One gathering checklist entry (`GatheringStep` in `types/index.ts`). -/
structure GatheringStep where
  id : Nat
  railType : RailType
  sourceRailId : Nat
  length : Int
  isRemainder : Bool
  isFromNewStock : Bool
  confirmed : Bool
  confirmedAt : Option Nat
  deriving DecidableEq, Repr

/-- One cutting checklist entry (`CuttingStep` in `types/index.ts`). -/
structure CuttingStep where
  id : Nat
  suggestionIndex : Nat
  sourceRailId : Nat
  pieceId : Nat
  railType : RailType
  sourceLength : Int
  cutLength : Int
  remainderLength : Int
  wasteLength : Int
  purpose : String
  confirmed : Bool
  confirmedAt : Option Nat
  deriving DecidableEq, Repr

/-- Terminal confirmation of the returning phase (`ReturnConfirmation`). -/
structure ReturnConfirmation where
  confirmed : Bool
  confirmedAt : Option Nat
  notes : Option String
  deriving DecidableEq, Repr

/-- Audit-trail entry (`ExecutedCut` in `types/index.ts`). -/
structure ExecutedCut where
  id : Nat
  suggestionIndex : Nat
  pieceId : Nat
  sourceRailId : Nat
  cutLength : Int
  executedAt : Nat
  deriving DecidableEq, Repr

/-- A work order (`WorkOrder` in `types/index.ts`). -/
structure WorkOrder where
  id : Nat
  planId : Nat
  planName : String
  status : WorkOrderStatus
  phase : WorkOrderPhase
  createdAt : Nat
  startedAt : Option Nat
  completedAt : Option Nat
  gatheringSteps : List GatheringStep
  cuttingSteps : List CuttingStep
  returnConfirmation : ReturnConfirmation
  executedCuts : List ExecutedCut
  notes : Option String
  materialPlanSnapshot : MaterialPlan
  deriving DecidableEq, Repr

/-- The gathering step built for the first suggestion that references a
given source rail (`generateGatheringSteps` loop body).  The source also
requires the rail id not to contain the substring "inventory" for
`isFromNewStock`; rail ids are UUIDs from `generateId`, which never
contain that substring, so the check is modelled as always passing. -/
def mkGatheringStep (stepId : Nat) (s : CutSuggestion) : GatheringStep :=
  { id := stepId
    railType := s.piece.railType
    sourceRailId := s.sourceRail.id
    length := s.sourceRail.length
    isRemainder := s.sourceRail.isRemainder
    isFromNewStock := !s.sourceRail.isRemainder
    confirmed := false
    confirmedAt := none }

/-- Deduplication loop of `generateGatheringSteps`: a JS `Map` keyed by
`sourceRail.id`, keeping insertion order, first occurrence wins. -/
def gatherLoop : List CutSuggestion → List GatheringStep → Nat →
    List GatheringStep × Nat
  | [], acc, nid => (acc, nid)
  | s :: rest, acc, nid =>
    if acc.any (fun g => g.sourceRailId == s.sourceRail.id) then
      gatherLoop rest acc nid
    else
      gatherLoop rest (acc ++ [mkGatheringStep nid s]) (nid + 1)

/-- Strict "comes first" order of the gathering-step sort comparator:
new rails before remainders, then by rail-type label. -/
def gatherBefore (a b : GatheringStep) : Bool :=
  if a.isRemainder != b.isRemainder then !a.isRemainder
  else decide (a.railType.label < b.railType.label)

/-- Insertion step of the stable sort over gathering steps. -/
def insertGatheringStep (g : GatheringStep) :
    List GatheringStep → List GatheringStep
  | [] => [g]
  | h :: t => if gatherBefore g h then g :: h :: t else h :: insertGatheringStep g t

/-- Sort of the deduplicated gathering steps (the JS stable sort at the
end of `generateGatheringSteps`). -/
def sortGatheringSteps (l : List GatheringStep) : List GatheringStep :=
  l.foldr insertGatheringStep []

/-- Gathering-step generation from a material plan snapshot
(`generateGatheringSteps` in `context/WorkOrderContext.tsx`). -/
def generateGatheringSteps (materialPlan : MaterialPlan) : List GatheringStep :=
  sortGatheringSteps (gatherLoop materialPlan.suggestions [] 0).1

/-- Cutting-step generation from a material plan snapshot
(`generateCuttingSteps` in `context/WorkOrderContext.tsx`). -/
def generateCuttingSteps (materialPlan : MaterialPlan) : List CuttingStep :=
  (materialPlan.suggestions.enum).map (fun si =>
    { id := si.1
      suggestionIndex := si.1
      sourceRailId := si.2.sourceRail.id
      pieceId := si.2.piece.id
      railType := si.2.piece.railType
      sourceLength := si.2.sourceRail.length
      cutLength := si.2.piece.length
      remainderLength := si.2.remainderLength
      wasteLength := si.2.waste
      purpose := si.2.piece.purpose
      confirmed := false
      confirmedAt := none })

/-- Phase gate of the state machine (`canAdvancePhase`): all steps of
the current phase must be confirmed; the `completed` phase never
advances (the source's `default: return false`). -/
def canAdvancePhase (wo : WorkOrder) : Bool :=
  match wo.phase with
  | .gathering => wo.gatheringSteps.all (fun step => step.confirmed)
  | .cutting => wo.cuttingSteps.all (fun step => step.confirmed)
  | .returning => wo.returnConfirmation.confirmed
  | .completed => false

/-- The fixed phase sequence of `advancePhase`. -/
def phaseOrder : List WorkOrderPhase :=
  [.gathering, .cutting, .returning, .completed]

/-- Phase transition (`advancePhase` body for the matching work order,
with the call's wall-clock time passed in as `now`). -/
def advancePhase (now : Nat) (wo : WorkOrder) : WorkOrder :=
  if !canAdvancePhase wo then wo
  else
    match phaseOrder[phaseOrder.indexOf wo.phase + 1]? with
    | none => wo
    | some nextPhase =>
      if nextPhase = .completed then
        { wo with phase := nextPhase, status := .completed, completedAt := some now }
      else
        { wo with phase := nextPhase }

/-- Status update (`updateWorkOrderStatus` body for the matching work
order). -/
def updateWorkOrderStatus (now : Nat) (status : WorkOrderStatus)
    (wo : WorkOrder) : WorkOrder :=
  { wo with
    status := status
    startedAt :=
      if status = .inProgress ∧ wo.startedAt = none then some now else wo.startedAt
    completedAt :=
      if status = .completed ∨ status = .cancelled then some now else wo.completedAt }

/-- `startWorkOrder`: delegates to the status update. -/
def startWorkOrder (now : Nat) (wo : WorkOrder) : WorkOrder :=
  updateWorkOrderStatus now .inProgress wo

/-- `completeWorkOrder` body for the matching work order. -/
def completeWorkOrder (now : Nat) (wo : WorkOrder) : WorkOrder :=
  { wo with status := .completed, phase := .completed, completedAt := some now }

/-- `cancelWorkOrder`: delegates to the status update. -/
def cancelWorkOrder (now : Nat) (wo : WorkOrder) : WorkOrder :=
  updateWorkOrderStatus now .cancelled wo

/-- `confirmGatheringStep` body for the matching work order. -/
def confirmGatheringStep (now stepId : Nat) (wo : WorkOrder) : WorkOrder :=
  { wo with
    status := if wo.status = .draft then .inProgress else wo.status
    startedAt := match wo.startedAt with | some t => some t | none => some now
    gatheringSteps := wo.gatheringSteps.map (fun step =>
      if step.id == stepId then { step with confirmed := true, confirmedAt := some now }
      else step) }

/-- `confirmCuttingStep` body for the matching work order: stamp the
step and append the legacy `ExecutedCut` record. -/
def confirmCuttingStep (now freshCutId stepId : Nat) (wo : WorkOrder) : WorkOrder :=
  let updatedCuttingSteps := wo.cuttingSteps.map (fun step =>
    if step.id == stepId then { step with confirmed := true, confirmedAt := some now }
    else step)
  { wo with
    cuttingSteps := updatedCuttingSteps
    executedCuts :=
      match wo.cuttingSteps.find? (fun s => s.id == stepId) with
      | some step =>
        wo.executedCuts ++
          [{ id := freshCutId
             suggestionIndex := step.suggestionIndex
             pieceId := step.pieceId
             sourceRailId := step.sourceRailId
             cutLength := step.cutLength
             executedAt := now }]
      | none => wo.executedCuts }

/-- `confirmReturn` body for the matching work order. -/
def confirmReturn (now : Nat) (rnotes : Option String) (wo : WorkOrder) : WorkOrder :=
  { wo with
    returnConfirmation := { confirmed := true, confirmedAt := some now, notes := rnotes } }

/-- Payload of the legacy `recordCut` operation. -/
structure RecordedCutData where
  suggestionIndex : Nat
  pieceId : Nat
  sourceRailId : Nat
  cutLength : Int
  deriving DecidableEq, Repr

/-- Legacy `recordCut` body for the matching work order. -/
def recordCut (now freshId : Nat) (cut : RecordedCutData) (wo : WorkOrder) : WorkOrder :=
  { wo with
    executedCuts := wo.executedCuts ++
      [{ id := freshId
         suggestionIndex := cut.suggestionIndex
         pieceId := cut.pieceId
         sourceRailId := cut.sourceRailId
         cutLength := cut.cutLength
         executedAt := now }]
    status := if wo.status = .draft then .inProgress else wo.status
    startedAt := match wo.startedAt with | some t => some t | none => some now }

/-- `updateWorkOrderNotes` body for the matching work order. -/
def updateWorkOrderNotes (wnotes : Option String) (wo : WorkOrder) : WorkOrder :=
  { wo with notes := wnotes }

/-- One operation of the work-order context API, applied to a single
work order (the per-order body of each context function). -/
inductive WOOp where
  | updateStatus (status : WorkOrderStatus)
  | startOrder
  | completeOrder
  | cancelOrder
  | confirmGathering (stepId : Nat)
  | confirmCutting (freshCutId stepId : Nat)
  | confirmReturnStep (rnotes : Option String)
  | advance
  | updateNotes (wnotes : Option String)
  | recordCutOp (freshId : Nat) (cut : RecordedCutData)
  deriving DecidableEq, Repr

/-- Interpretation of one context operation at time `now`. -/
def applyOp (now : Nat) (op : WOOp) (wo : WorkOrder) : WorkOrder :=
  match op with
  | .updateStatus s => updateWorkOrderStatus now s wo
  | .startOrder => startWorkOrder now wo
  | .completeOrder => completeWorkOrder now wo
  | .cancelOrder => cancelWorkOrder now wo
  | .confirmGathering stepId => confirmGatheringStep now stepId wo
  | .confirmCutting freshCutId stepId => confirmCuttingStep now freshCutId stepId wo
  | .confirmReturnStep rnotes => confirmReturn now rnotes wo
  | .advance => advancePhase now wo
  | .updateNotes wnotes => updateWorkOrderNotes wnotes wo
  | .recordCutOp freshId cut => recordCut now freshId cut wo

/-- A sequence of timed context operations, applied left to right. -/
def applyOps (ops : List (Nat × WOOp)) (wo : WorkOrder) : WorkOrder :=
  ops.foldl (fun w p => applyOp p.1 p.2 w) wo

/-! ### Concrete example values used by witnesses and counterexamples -/

/-- A 10x3mm rail type. -/
def typeA : RailType := { width := 10, thickness := 3, label := "10x3mm" }

/-- An exact-length non-remainder rail for the C1 scenario. -/
def railExact : Rail :=
  { id := 1, length := 500, width := 10, thickness := 3,
    isRemainder := false, originalRailId := none, createdAt := 0, notes := none }

/-- A strictly longer remainder rail of the same type. -/
def railRem : Rail :=
  { id := 2, length := 800, width := 10, thickness := 3,
    isRemainder := true, originalRailId := none, createdAt := 0, notes := none }

/-- A unit piece of length 500 of type A. -/
def piece500 : CutPiece :=
  { id := 0, length := 500, quantity := 1, purpose := "Y", railType := typeA }

/-- The suggestion `findBestRailForPiece` returns for `piece500` on the
pool `[railExact, railRem]`. -/
def suggestion500 : CutSuggestion :=
  { sourceRail := railRem, piece := piece500,
    remainderLength := 300, waste := 0, isOptimal := true }

/-- A unit piece of length 1500 of type A. -/
def piece1500 : CutPiece :=
  { id := 0, length := 1500, quantity := 1, purpose := "X", railType := typeA }

/-- A plan requiring one piece of length 1500. -/
def plan1500 : FusionBoxPlan :=
  { id := 0, name := "P", requiredPieces := [piece1500] }

/-- A unit piece of length 1000 of type A (exactly a standard length). -/
def piece1000 : CutPiece :=
  { id := 0, length := 1000, quantity := 1, purpose := "Z", railType := typeA }

/-- A plan requiring one piece of length 1000. -/
def plan1000 : FusionBoxPlan :=
  { id := 0, name := "Q", requiredPieces := [piece1000] }

/-- A 100mm rail used in the `cutRail` scenarios. -/
def rail100 : Rail :=
  { id := 1, length := 100, width := 10, thickness := 3,
    isRemainder := false, originalRailId := none, createdAt := 0, notes := none }

/-- A 110mm rail used in the `cutRail` success scenario (cutting 100mm
leaves a 10mm leftover, below the 50mm usable threshold). -/
def rail110 : Rail :=
  { id := 1, length := 110, width := 10, thickness := 3,
    isRemainder := false, originalRailId := none, createdAt := 0, notes := none }

/-- An empty material plan snapshot for concrete work orders. -/
def emptySnapshot : MaterialPlan :=
  { plan := { id := 0, name := "", requiredPieces := [] },
    suggestions := [], totalWaste := 0, usedRemainders := 0, newRailsNeeded := 0 }

/-- A confirmed gathering step. -/
def confirmedGatheringStep : GatheringStep :=
  { id := 0, railType := typeA, sourceRailId := 1, length := 100,
    isRemainder := false, isFromNewStock := true, confirmed := true,
    confirmedAt := some 1 }

/-- An unconfirmed gathering step. -/
def unconfirmedGatheringStep : GatheringStep :=
  { id := 1, railType := typeA, sourceRailId := 2, length := 200,
    isRemainder := false, isFromNewStock := true, confirmed := false,
    confirmedAt := none }

/-- A cancelled work order in the gathering phase whose single gathering
step is already confirmed. -/
def cancelledWO : WorkOrder :=
  { id := 0, planId := 0, planName := "", status := .cancelled,
    phase := .gathering, createdAt := 0, startedAt := some 1,
    completedAt := some 2, gatheringSteps := [confirmedGatheringStep],
    cuttingSteps := [], returnConfirmation := { confirmed := false, confirmedAt := none, notes := none },
    executedCuts := [], notes := none, materialPlanSnapshot := emptySnapshot }

/-- An in-progress work order in the gathering phase with one confirmed
and one unconfirmed gathering step. -/
def gatheringWO : WorkOrder :=
  { id := 0, planId := 0, planName := "", status := .inProgress,
    phase := .gathering, createdAt := 0, startedAt := some 1,
    completedAt := none,
    gatheringSteps := [confirmedGatheringStep, unconfirmedGatheringStep],
    cuttingSteps := [], returnConfirmation := { confirmed := false, confirmedAt := none, notes := none },
    executedCuts := [], notes := none, materialPlanSnapshot := emptySnapshot }

/-- A completed-phase work order. -/
def completedWO : WorkOrder :=
  { id := 0, planId := 0, planName := "", status := .completed,
    phase := .completed, createdAt := 0, startedAt := some 1,
    completedAt := some 2, gatheringSteps := [confirmedGatheringStep],
    cuttingSteps := [], returnConfirmation := { confirmed := true, confirmedAt := some 2, notes := none },
    executedCuts := [], notes := none, materialPlanSnapshot := emptySnapshot }

/-- The allocation state just before the single piece of `plan1500` is
processed on an empty pool. -/
def emptyState1500 : AllocState :=
  { callerInventory := [], workingInventory := [], suggestions := [],
    totalWaste := 0, usedRemainders := 0, newRailsNeeded := 0, nextId := 2 }

/-! ### Helper lemmas about the rail comparator and best-rail selection -/

lemma railBetter_irrefl (a : Rail) : railBetter a a = false := by
  simp [railBetter]

lemma railBetter_trans {a b c : Rail} (h1 : railBetter a b = true)
    (h2 : railBetter b c = true) : railBetter a c = true := by
  unfold railBetter at *
  cases ha : a.isRemainder <;> cases hb : b.isRemainder <;> cases hc : c.isRemainder <;>
    simp [ha, hb, hc] at * <;> omega

lemma railBetter_not_trans {a b c : Rail} (h1 : railBetter a b = false)
    (h2 : railBetter b c = false) : railBetter a c = false := by
  unfold railBetter at *
  cases ha : a.isRemainder <;> cases hb : b.isRemainder <;> cases hc : c.isRemainder <;>
    simp [ha, hb, hc] at * <;> omega

lemma pickBest_spec (rs : List Rail) (acc : Rail) :
    (pickBest acc rs = acc ∨ pickBest acc rs ∈ rs) ∧
    railBetter acc (pickBest acc rs) = false ∧
    ∀ x ∈ rs, railBetter x (pickBest acc rs) = false := by
  induction rs generalizing acc with
  | nil => exact ⟨Or.inl rfl, railBetter_irrefl acc, by simp⟩
  | cons c rs ih =>
    have hstep : pickBest acc (c :: rs) = pickBest (if railBetter c acc then c else acc) rs := by
      simp [pickBest]
    by_cases hc : railBetter c acc = true
    · rw [hstep, if_pos hc]
      obtain ⟨hmem, hacc, hall⟩ := ih c
      refine ⟨?_, ?_, ?_⟩
      · rcases hmem with h | h
        · exact Or.inr (by simp [h])
        · exact Or.inr (List.mem_cons_of_mem _ h)
      · cases hx : railBetter acc (pickBest c rs) with
        | false => rfl
        | true =>
          have := railBetter_trans hc hx
          rw [this] at hacc
          exact hacc
      · intro x hx
        rcases List.mem_cons.mp hx with rfl | hx
        · exact hacc
        · exact hall x hx
    · simp only [Bool.not_eq_true] at hc
      rw [hstep, if_neg (by simp [hc])]
      obtain ⟨hmem, hacc, hall⟩ := ih acc
      refine ⟨?_, hacc, ?_⟩
      · rcases hmem with h | h
        · exact Or.inl h
        · exact Or.inr (List.mem_cons_of_mem _ h)
      · intro x hx
        rcases List.mem_cons.mp hx with rfl | hx
        · exact railBetter_not_trans hc hacc
        · exact hall x hx

lemma selectBestRail_spec {l : List Rail} {b : Rail}
    (h : selectBestRail l = some b) :
    b ∈ l ∧ ∀ x ∈ l, railBetter x b = false := by
  match l with
  | [] => simp [selectBestRail] at h
  | r :: rs =>
    simp only [selectBestRail, Option.some.injEq] at h
    obtain ⟨hmem, hacc, hall⟩ := pickBest_spec rs r
    subst h
    constructor
    · rcases hmem with h | h
      · rw [h]; exact List.mem_cons_self r rs
      · exact List.mem_cons_of_mem _ h
    · intro x hx
      rcases List.mem_cons.mp hx with rfl | hx
      · exact hacc
      · exact hall x hx

lemma selectBestRail_eq_none {l : List Rail} :
    selectBestRail l = none ↔ l = [] := by
  cases l <;> simp [selectBestRail]

/-- Unpacked membership facts for a rail in the compatibility filter. -/
lemma mem_compatibleRails {inventory : List Rail} {piece : CutPiece} {r : Rail}
    (h : r ∈ compatibleRails inventory piece) :
    r ∈ inventory ∧ r.width = piece.railType.width ∧
      r.thickness = piece.railType.thickness ∧ piece.length ≤ r.length := by
  have := List.mem_filter.mp h
  simp only [Bool.and_eq_true, beq_iff_eq, decide_eq_true_eq] at this
  tauto

/-! ### C1 -/

/-- C1: `findBestRailForPiece` returns `none` exactly when no rail in
the pool matches the piece's width and thickness with sufficient length;
otherwise the returned suggestion's source rail is a compatible rail
that is remainder-preferred (if any compatible remainder exists, a
remainder is chosen) and of minimal length among compatible rails of its
remainder status.  In particular, for a pool holding an exact-length
non-remainder rail and a strictly longer remainder rail of the same
type, the remainder rail is chosen. -/
theorem C1_find_best_rail (inventory : List Rail) (piece : CutPiece) :
    (findBestRailForPiece inventory piece = none ↔
      compatibleRails inventory piece = []) ∧
    (∀ s, findBestRailForPiece inventory piece = some s →
      s.sourceRail ∈ compatibleRails inventory piece ∧
      ∀ r ∈ compatibleRails inventory piece,
        (r.isRemainder = true → s.sourceRail.isRemainder = true) ∧
        (r.isRemainder = s.sourceRail.isRemainder → s.sourceRail.length ≤ r.length)) ∧
    (∀ a b s, a.width = piece.railType.width → a.thickness = piece.railType.thickness →
      b.width = piece.railType.width → b.thickness = piece.railType.thickness →
      a.isRemainder = false → b.isRemainder = true →
      a.length = piece.length → piece.length < b.length →
      findBestRailForPiece [a, b] piece = some s →
      s.sourceRail = b) := by
  refine ⟨?_, ?_, ?_⟩
  · unfold findBestRailForPiece
    cases h : selectBestRail (compatibleRails inventory piece) with
    | none => simpa using selectBestRail_eq_none.mp h
    | some b =>
      simp only [reduceCtorEq, false_iff]
      intro hnil
      rw [hnil] at h
      simp [selectBestRail] at h
  · intro s hs
    unfold findBestRailForPiece at hs
    cases h : selectBestRail (compatibleRails inventory piece) with
    | none => rw [h] at hs; exact absurd hs (by simp)
    | some b =>
      rw [h] at hs
      simp only [Option.some.injEq] at hs
      obtain ⟨hmem, hmin⟩ := selectBestRail_spec h
      have hsb : s.sourceRail = b := by rw [← hs]
      refine ⟨hsb ▸ hmem, ?_⟩
      intro r hr
      have hnb := hmin r hr
      rw [hsb]
      unfold railBetter at hnb
      constructor
      · intro hrrem
        by_contra hb
        simp only [Bool.not_eq_true] at hb
        rw [hrrem, hb] at hnb
        simp at hnb
      · intro heq
        rw [heq] at hnb
        simp at hnb
        omega
  · intro a b s haw hat hbw hbt ha hb hal hbl hs
    unfold findBestRailForPiece at hs
    cases h : selectBestRail (compatibleRails [a, b] piece) with
    | none => rw [h] at hs; exact absurd hs (by simp)
    | some best =>
      rw [h] at hs
      simp only [Option.some.injEq] at hs
      obtain ⟨hmem, hmin⟩ := selectBestRail_spec h
      have hsb : s.sourceRail = best := by rw [← hs]
      rw [hsb]
      have hbcomp : b ∈ compatibleRails [a, b] piece := by
        unfold compatibleRails
        refine List.mem_filter.mpr ⟨by simp, ?_⟩
        simp only [Bool.and_eq_true, beq_iff_eq, decide_eq_true_eq]
        exact ⟨⟨hbw, hbt⟩, le_of_lt hbl⟩
      have hbest_mem : best ∈ [a, b] := List.mem_of_mem_filter hmem
      rcases List.mem_cons.mp hbest_mem with rfl | hbb
      · exfalso
        have := hmin b hbcomp
        unfold railBetter at this
        rw [hb, ha] at this
        simp at this
      · simpa using hbb

/-- Witness for C1 at the pool `[railExact, railRem]` and `piece500`:
the chosen source rail is compatible, minimal in the stated sense, and
is the remainder rail even though the non-remainder rail fits exactly. -/
theorem C1_witness :
    suggestion500.sourceRail ∈ compatibleRails [railExact, railRem] piece500 ∧
    (∀ r ∈ compatibleRails [railExact, railRem] piece500,
      (r.isRemainder = true → suggestion500.sourceRail.isRemainder = true) ∧
      (r.isRemainder = suggestion500.sourceRail.isRemainder →
        suggestion500.sourceRail.length ≤ r.length)) ∧
    suggestion500.sourceRail = railRem := by
  have h := C1_find_best_rail [railExact, railRem] piece500
  have hfind : findBestRailForPiece [railExact, railRem] piece500 = some suggestion500 := by
    decide
  refine ⟨(h.2.1 suggestion500 hfind).1, (h.2.1 suggestion500 hfind).2, ?_⟩
  exact h.2.2 railExact railRem suggestion500 rfl rfl rfl rfl rfl rfl (by decide) (by decide) hfind

/-! ### C2 -/

/-- C2: when the allocation loop finds no compatible rail of sufficient
length in the working pool, it synthesizes a new non-remainder rail of
length `findSmallestSufficientStandardRail piece.length`, which is the
smallest standard length that accommodates the piece, or the largest
standard length (6000) when none suffices, and increments
`newRailsNeeded` by one; on empty stock a single 1500mm piece yields one
suggestion with a 2000mm source rail, 500mm remainder and one new rail. -/
theorem C2_synthesize_standard_rail :
    (∀ L : Int,
      findSmallestSufficientStandardRail L ∈ STANDARD_RAIL_LENGTHS ∧
      ((∃ s ∈ STANDARD_RAIL_LENGTHS, L ≤ s) →
        L ≤ findSmallestSufficientStandardRail L ∧
        ∀ s ∈ STANDARD_RAIL_LENGTHS, L ≤ s → findSmallestSufficientStandardRail L ≤ s) ∧
      ((∀ s ∈ STANDARD_RAIL_LENGTHS, s < L) →
        findSmallestSufficientStandardRail L = 6000)) ∧
    (∀ st piece, findBestRailForPiece st.workingInventory piece = none →
      (allocStep st piece).newRailsNeeded = st.newRailsNeeded + 1 ∧
      ∃ s, (allocStep st piece).suggestions = st.suggestions ++ [s] ∧
        s.sourceRail.length = findSmallestSufficientStandardRail piece.length ∧
        s.sourceRail.isRemainder = false ∧ s.piece = piece) ∧
    ((generateMaterialPlan plan1500 []).suggestions.map
        (fun s => (s.sourceRail.length, s.remainderLength, s.waste)) = [(2000, 500, 0)] ∧
      (generateMaterialPlan plan1500 []).newRailsNeeded = 1) := by
  refine ⟨?_, ?_, by decide⟩
  · intro L
    unfold findSmallestSufficientStandardRail STANDARD_RAIL_LENGTHS
    by_cases h1 : L ≤ 1000
    · have e1 : decide (L ≤ (1000 : Int)) = true := by simp [h1]
      simp only [List.find?, e1]
      refine ⟨by simp, fun _ => ⟨h1, fun s hs hLs => ?_⟩, fun hall => ?_⟩
      · simp only [List.mem_cons, List.not_mem_nil, or_false] at hs
        rcases hs with rfl | rfl | rfl | rfl <;> omega
      · exfalso; have := hall 1000 (by simp); omega
    · have e1 : decide (L ≤ (1000 : Int)) = false := by simp; omega
      by_cases h2 : L ≤ 2000
      · have e2 : decide (L ≤ (2000 : Int)) = true := by simp [h2]
        simp only [List.find?, e1, e2]
        refine ⟨by simp, fun _ => ⟨h2, fun s hs hLs => ?_⟩, fun hall => ?_⟩
        · simp only [List.mem_cons, List.not_mem_nil, or_false] at hs
          rcases hs with rfl | rfl | rfl | rfl <;> omega
        · exfalso; have := hall 2000 (by simp); omega
      · have e2 : decide (L ≤ (2000 : Int)) = false := by simp; omega
        by_cases h3 : L ≤ 3000
        · have e3 : decide (L ≤ (3000 : Int)) = true := by simp [h3]
          simp only [List.find?, e1, e2, e3]
          refine ⟨by simp, fun _ => ⟨h3, fun s hs hLs => ?_⟩, fun hall => ?_⟩
          · simp only [List.mem_cons, List.not_mem_nil, or_false] at hs
            rcases hs with rfl | rfl | rfl | rfl <;> omega
          · exfalso; have := hall 3000 (by simp); omega
        · have e3 : decide (L ≤ (3000 : Int)) = false := by simp; omega
          by_cases h4 : L ≤ 6000
          · have e4 : decide (L ≤ (6000 : Int)) = true := by simp [h4]
            simp only [List.find?, e1, e2, e3, e4]
            refine ⟨by simp, fun _ => ⟨h4, fun s hs hLs => ?_⟩, fun hall => ?_⟩
            · simp only [List.mem_cons, List.not_mem_nil, or_false] at hs
              rcases hs with rfl | rfl | rfl | rfl <;> omega
            · exfalso; have := hall 6000 (by simp); omega
          · have e4 : decide (L ≤ (6000 : Int)) = false := by simp; omega
            simp only [List.find?, e1, e2, e3, e4]
            refine ⟨by simp [List.getLastD], fun hex => ?_, fun _ => by simp [List.getLastD]⟩
            exfalso
            obtain ⟨s, hs, hLs⟩ := hex
            simp only [List.mem_cons, List.not_mem_nil, or_false] at hs
            rcases hs with rfl | rfl | rfl | rfl <;> omega
  · intro st piece hnone
    unfold allocStep
    rw [hnone]
    refine ⟨rfl, ?_⟩
    exact ⟨_, rfl, rfl, rfl, rfl⟩

/-- Witness for C2: the standard-length characterization applied at
1500mm, and the synthesized-rail step applied on an empty working pool. -/
theorem C2_witness :
    (1500 : Int) ≤ findSmallestSufficientStandardRail 1500 ∧
    (allocStep emptyState1500 piece1500).newRailsNeeded =
      emptyState1500.newRailsNeeded + 1 := by
  constructor
  · exact ((C2_synthesize_standard_rail.1 1500).2.1 ⟨2000, by decide, by decide⟩).1
  · exact (C2_synthesize_standard_rail.2.1 emptyState1500 piece1500 (by decide)).1

/-! ### C3 -/

lemma findBest_some_fields {inv : List Rail} {p : CutPiece} {s : CutSuggestion}
    (h : findBestRailForPiece inv p = some s) :
    s.piece = p ∧
    s.remainderLength =
      (if MIN_USABLE_LENGTH ≤ s.sourceRail.length - p.length
       then s.sourceRail.length - p.length else 0) ∧
    s.waste =
      (if s.sourceRail.length - p.length < MIN_USABLE_LENGTH
       then s.sourceRail.length - p.length else 0) ∧
    s.isOptimal =
      (s.sourceRail.isRemainder ||
        decide (s.sourceRail.length - p.length < MIN_USABLE_LENGTH)) := by
  unfold findBestRailForPiece at h
  cases hsel : selectBestRail (compatibleRails inv p) with
  | none => rw [hsel] at h; exact absurd h (by simp)
  | some b =>
    rw [hsel] at h
    simp only [Option.some.injEq] at h
    subst h
    refine ⟨rfl, rfl, rfl, rfl⟩

lemma synthSuggestion_fields (nid : Nat) (piece : CutPiece) :
    (synthSuggestion nid piece).piece = piece ∧
    (synthSuggestion nid piece).sourceRail.length =
      findSmallestSufficientStandardRail piece.length ∧
    (synthSuggestion nid piece).sourceRail.isRemainder = false ∧
    (synthSuggestion nid piece).remainderLength =
      (if MIN_USABLE_LENGTH ≤ findSmallestSufficientStandardRail piece.length - piece.length
       then findSmallestSufficientStandardRail piece.length - piece.length else 0) ∧
    (synthSuggestion nid piece).waste =
      (if findSmallestSufficientStandardRail piece.length - piece.length < MIN_USABLE_LENGTH
       then findSmallestSufficientStandardRail piece.length - piece.length else 0) ∧
    (synthSuggestion nid piece).isOptimal = false := by
  refine ⟨rfl, rfl, rfl, rfl, rfl, rfl⟩

/-- Generic invariant over the suggestions accumulated by the
allocation loop: every suggestion comes either from
`findBestRailForPiece` or from the new-rail synthesis branch. -/
lemma foldl_allocStep_suggestions_inv (P : CutSuggestion → Prop)
    (hsome : ∀ inv piece s, findBestRailForPiece inv piece = some s → P s)
    (hnone : ∀ nid piece, P (synthSuggestion nid piece)) :
    ∀ (pieces : List CutPiece) (st : AllocState),
      (∀ t ∈ st.suggestions, P t) →
      ∀ s ∈ (pieces.foldl allocStep st).suggestions, P s := by
  intro pieces
  induction pieces with
  | nil => intro st h s hs; exact h s hs
  | cons p rest ih =>
    intro st h s hs
    rw [List.foldl_cons] at hs
    apply ih (allocStep st p) _ s hs
    intro t ht
    unfold allocStep at ht
    cases hf : findBestRailForPiece st.workingInventory p with
    | some sug =>
      rw [hf] at ht
      simp only [List.mem_append, List.mem_singleton] at ht
      rcases ht with ht | rfl
      · exact h t ht
      · exact hsome _ _ _ hf
    | none =>
      rw [hf] at ht
      simp only [List.mem_append, List.mem_singleton] at ht
      rcases ht with ht | rfl
      · exact h t ht
      · exact hnone _ _

lemma generateMaterialPlan_suggestions_eq (plan : FusionBoxPlan)
    (inventory : List Rail) :
    (generateMaterialPlan plan inventory).suggestions =
      ((sortPiecesDesc (expandPieces plan.requiredPieces (freshIdAbove inventory)).1).foldl
        allocStep
        { callerInventory := inventory
          workingInventory := inventory.map copyRail
          suggestions := []
          totalWaste := 0
          usedRemainders := 0
          newRailsNeeded := 0
          nextId := (expandPieces plan.requiredPieces (freshIdAbove inventory)).2 }).suggestions := by
  rfl

/-- C3: for every suggestion produced by `findBestRailForPiece` or
collected by `generateMaterialPlan`, `remainderLength` and `waste` are
never both nonzero and `remainderLength + waste + piece.length` equals
`sourceRail.length`. -/
theorem C3_remainder_waste_invariant :
    (∀ inv piece s, findBestRailForPiece inv piece = some s →
      ¬(s.remainderLength ≠ 0 ∧ s.waste ≠ 0) ∧
      s.remainderLength + s.waste + s.piece.length = s.sourceRail.length) ∧
    (∀ plan inv, ∀ s ∈ (generateMaterialPlan plan inv).suggestions,
      ¬(s.remainderLength ≠ 0 ∧ s.waste ≠ 0) ∧
      s.remainderLength + s.waste + s.piece.length = s.sourceRail.length) := by
  have hsome : ∀ inv piece s, findBestRailForPiece inv piece = some s →
      ¬(s.remainderLength ≠ 0 ∧ s.waste ≠ 0) ∧
      s.remainderLength + s.waste + s.piece.length = s.sourceRail.length := by
    intro inv piece s h
    obtain ⟨hp, hrl, hw, _⟩ := findBest_some_fields h
    rw [hp]
    by_cases hr : MIN_USABLE_LENGTH ≤ s.sourceRail.length - piece.length
    · rw [if_pos hr] at hrl
      rw [if_neg (by omega)] at hw
      constructor
      · intro hcon; exact hcon.2 hw
      · omega
    · rw [if_neg hr] at hrl
      rw [if_pos (by omega)] at hw
      constructor
      · intro hcon; exact hcon.1 hrl
      · omega
  have hnone : ∀ nid piece,
      ¬((synthSuggestion nid piece).remainderLength ≠ 0 ∧
        (synthSuggestion nid piece).waste ≠ 0) ∧
      (synthSuggestion nid piece).remainderLength + (synthSuggestion nid piece).waste +
        (synthSuggestion nid piece).piece.length =
        (synthSuggestion nid piece).sourceRail.length := by
    intro nid piece
    obtain ⟨hp, hlen, _, hrl, hw, _⟩ := synthSuggestion_fields nid piece
    by_cases hr : MIN_USABLE_LENGTH ≤ findSmallestSufficientStandardRail piece.length - piece.length
    · rw [if_pos hr] at hrl
      rw [if_neg (by omega)] at hw
      constructor
      · intro hcon; exact hcon.2 hw
      · rw [hp, hlen]; omega
    · rw [if_neg hr] at hrl
      rw [if_pos (by omega)] at hw
      constructor
      · intro hcon; exact hcon.1 hrl
      · rw [hp, hlen]; omega
  refine ⟨hsome, ?_⟩
  intro plan inv s hs
  rw [generateMaterialPlan_suggestions_eq] at hs
  exact foldl_allocStep_suggestions_inv _ hsome hnone _ _ (by simp) s hs

/-- Witness for C3: the invariant instantiated on the suggestion found
for `piece500` in the two-rail pool, and on the single suggestion of the
empty-stock 1500mm run. -/
theorem C3_witness :
    (¬(suggestion500.remainderLength ≠ 0 ∧ suggestion500.waste ≠ 0) ∧
      suggestion500.remainderLength + suggestion500.waste + suggestion500.piece.length =
        suggestion500.sourceRail.length) ∧
    (∀ s ∈ (generateMaterialPlan plan1500 []).suggestions,
      ¬(s.remainderLength ≠ 0 ∧ s.waste ≠ 0) ∧
      s.remainderLength + s.waste + s.piece.length = s.sourceRail.length) := by
  constructor
  · exact C3_remainder_waste_invariant.1 [railExact, railRem] piece500 suggestion500 (by decide)
  · exact C3_remainder_waste_invariant.2 plan1500 []

/-! ### C4 -/

lemma canAdvance_gathering {wo : WorkOrder} (h : wo.phase = .gathering) :
    canAdvancePhase wo = wo.gatheringSteps.all (fun step => step.confirmed) := by
  unfold canAdvancePhase
  rw [h]

lemma canAdvance_cutting {wo : WorkOrder} (h : wo.phase = .cutting) :
    canAdvancePhase wo = wo.cuttingSteps.all (fun step => step.confirmed) := by
  unfold canAdvancePhase
  rw [h]

lemma canAdvance_returning {wo : WorkOrder} (h : wo.phase = .returning) :
    canAdvancePhase wo = wo.returnConfirmation.confirmed := by
  unfold canAdvancePhase
  rw [h]

lemma canAdvance_completed {wo : WorkOrder} (h : wo.phase = .completed) :
    canAdvancePhase wo = false := by
  unfold canAdvancePhase
  rw [h]

lemma advancePhase_noop {wo : WorkOrder} (now : Nat)
    (h : canAdvancePhase wo = false) : advancePhase now wo = wo := by
  unfold advancePhase
  rw [h]
  rfl

lemma advancePhase_gathering {wo : WorkOrder} (now : Nat)
    (h : wo.phase = .gathering) (hcan : canAdvancePhase wo = true) :
    advancePhase now wo = { wo with phase := .cutting } := by
  unfold advancePhase
  rw [hcan, h]
  have h1 : phaseOrder[phaseOrder.indexOf WorkOrderPhase.gathering + 1]? =
      some WorkOrderPhase.cutting := by decide
  rw [h1]
  simp

lemma advancePhase_cutting {wo : WorkOrder} (now : Nat)
    (h : wo.phase = .cutting) (hcan : canAdvancePhase wo = true) :
    advancePhase now wo = { wo with phase := .returning } := by
  unfold advancePhase
  rw [hcan, h]
  have h1 : phaseOrder[phaseOrder.indexOf WorkOrderPhase.cutting + 1]? =
      some WorkOrderPhase.returning := by decide
  rw [h1]
  simp

lemma advancePhase_returning {wo : WorkOrder} (now : Nat)
    (h : wo.phase = .returning) (hcan : canAdvancePhase wo = true) :
    advancePhase now wo =
      { wo with phase := .completed, status := .completed, completedAt := some now } := by
  unfold advancePhase
  rw [hcan, h]
  have h1 : phaseOrder[phaseOrder.indexOf WorkOrderPhase.returning + 1]? =
      some WorkOrderPhase.completed := by decide
  rw [h1]
  simp

/-- C4: `advancePhase` is a no-op (phase and status unchanged, in fact
the whole work order unchanged) whenever some step of the current phase
is unconfirmed; when every step of the current phase is confirmed it
moves the phase to the next element of gathering, cutting, returning,
completed, and on entering `completed` it also sets `status = completed`
and stamps `completedAt`. -/
theorem C4_advance_phase_spec (wo : WorkOrder) (now : Nat) :
    (wo.phase = WorkOrderPhase.gathering →
      ((∃ step ∈ wo.gatheringSteps, step.confirmed = false) →
        advancePhase now wo = wo) ∧
      ((∀ step ∈ wo.gatheringSteps, step.confirmed = true) →
        advancePhase now wo = { wo with phase := WorkOrderPhase.cutting })) ∧
    (wo.phase = WorkOrderPhase.cutting →
      ((∃ step ∈ wo.cuttingSteps, step.confirmed = false) →
        advancePhase now wo = wo) ∧
      ((∀ step ∈ wo.cuttingSteps, step.confirmed = true) →
        advancePhase now wo = { wo with phase := WorkOrderPhase.returning })) ∧
    (wo.phase = WorkOrderPhase.returning →
      (wo.returnConfirmation.confirmed = false → advancePhase now wo = wo) ∧
      (wo.returnConfirmation.confirmed = true →
        advancePhase now wo =
          { wo with phase := WorkOrderPhase.completed,
                    status := WorkOrderStatus.completed,
                    completedAt := some now })) := by
  refine ⟨?_, ?_, ?_⟩
  · intro hph
    constructor
    · intro hex
      apply advancePhase_noop
      rw [canAdvance_gathering hph, List.all_eq_false]
      obtain ⟨step, hmem, hconf⟩ := hex
      exact ⟨step, hmem, by simp [hconf]⟩
    · intro hall
      apply advancePhase_gathering now hph
      rw [canAdvance_gathering hph]
      simp only [List.all_eq_true]
      exact hall
  · intro hph
    constructor
    · intro hex
      apply advancePhase_noop
      rw [canAdvance_cutting hph, List.all_eq_false]
      obtain ⟨step, hmem, hconf⟩ := hex
      exact ⟨step, hmem, by simp [hconf]⟩
    · intro hall
      apply advancePhase_cutting now hph
      rw [canAdvance_cutting hph]
      simp only [List.all_eq_true]
      exact hall
  · intro hph
    constructor
    · intro hconf
      apply advancePhase_noop
      rw [canAdvance_returning hph]
      exact hconf
    · intro hconf
      apply advancePhase_returning now hph
      rw [canAdvance_returning hph]
      exact hconf

/-- Witness for C4 at `gatheringWO` (one unconfirmed gathering step, so
the call is a no-op) and at `completedWO`-like data via the returning
branch of `cancelledWO` is not needed: we instantiate the no-op branch
concretely. -/
theorem C4_witness :
    advancePhase 9 gatheringWO = gatheringWO := by
  exact ((C4_advance_phase_spec gatheringWO 9).1 rfl).1
    ⟨unconfirmedGatheringStep, by decide, rfl⟩

/-! ### C5 -/

/-- Counterexample to C5 as stated: for the in-pool rail `rail100` and
`cutLength = 0` (which is `≤ 0`), `cutRail` does NOT fail — it returns a
remainder and changes the pool (the rail is replaced by a fresh-id
remainder of full length). -/
theorem C5_counterexample :
    ¬((cutRail 99 7 [rail100] rail100.id 0 none).2 = none ∧
      (cutRail 99 7 [rail100] rail100.id 0 none).1 = [rail100]) := by
  decide

/-- C5 (amended): `cutRail` fails (returns null) and leaves the live
pool completely unchanged when every rail carrying the requested id is
shorter than the cut (in particular when `cutLength > rail.length` for
the in-pool rail, or when no such rail exists); a non-positive
`cutLength` is not rejected by the source. -/
theorem C5_invalid_cut_rejected (pool : List Rail) (railId : Nat)
    (cutLength : Int) (freshId now : Nat) (purpose : Option String)
    (h : ∀ r ∈ pool, r.id = railId → r.length < cutLength) :
    cutRail freshId now pool railId cutLength purpose = (pool, none) := by
  unfold cutRail
  cases hf : pool.find? (fun r => r.id == railId) with
  | none => rfl
  | some rail =>
    have hmem : rail ∈ pool := List.mem_of_find?_eq_some hf
    have hid : rail.id = railId := by
      have := List.find?_some hf
      simpa using this
    have hlt := h rail hmem hid
    simp [hlt]

/-- Witness for C5 (amended): cutting 150mm from a 100mm rail is
rejected with no pool change. -/
theorem C5_witness :
    cutRail 99 7 [rail100] rail100.id 150 none = ([rail100], none) := by
  exact C5_invalid_cut_rejected [rail100] rail100.id 150 99 7 none
    (by intro r hr _; simp only [List.mem_singleton] at hr; subst hr; decide)

/-! ### C6 -/

lemma applyOp_preserves_completed_phase (now : Nat) (op : WOOp) (wo : WorkOrder)
    (h : wo.phase = WorkOrderPhase.completed) :
    (applyOp now op wo).phase = WorkOrderPhase.completed := by
  cases op with
  | updateStatus s => exact h
  | startOrder => exact h
  | completeOrder => rfl
  | cancelOrder => exact h
  | confirmGathering stepId => exact h
  | confirmCutting freshCutId stepId => exact h
  | confirmReturnStep rnotes => exact h
  | advance =>
    have : advancePhase now wo = wo := advancePhase_noop now (canAdvance_completed h)
    rw [show applyOp now WOOp.advance wo = advancePhase now wo from rfl, this]
    exact h
  | updateNotes wnotes => exact h
  | recordCutOp freshId cut => exact h

/-- Counterexample to C6 as stated: `cancelledWO` has terminal status
`cancelled`, yet a single `advancePhase` call (its one gathering step
being confirmed) moves its phase from `gathering` to `cutting` — the
phase of a cancelled work order is not frozen. -/
theorem C6_counterexample :
    cancelledWO.status = WorkOrderStatus.cancelled ∧
    (applyOps [(3, WOOp.advance)] cancelledWO).phase ≠ cancelledWO.phase := by
  decide

/-- C6 (amended): a work order's phase is frozen once the PHASE is
`completed` (which is how both `advancePhase` leaving `returning` and
`completeWorkOrder` establish terminal `completed` status): no sequence
of work-order operations ever changes it afterwards.  Terminal STATUS
alone does not freeze the phase — a cancelled work order whose current
phase's steps are all confirmed still advances (see the
counterexample). -/
theorem C6_completed_phase_frozen (ops : List (Nat × WOOp)) (wo : WorkOrder)
    (h : wo.phase = WorkOrderPhase.completed) :
    (applyOps ops wo).phase = WorkOrderPhase.completed := by
  induction ops generalizing wo with
  | nil => exact h
  | cons op rest ih =>
    rw [applyOps, List.foldl_cons]
    exact ih _ (applyOp_preserves_completed_phase op.1 op.2 wo h)

/-- Witness for C6 (amended): a completed-phase work order keeps phase
`completed` across a cancel followed by an advance attempt. -/
theorem C6_witness :
    (applyOps [(5, WOOp.cancelOrder), (6, WOOp.advance)] completedWO).phase =
      WorkOrderPhase.completed := by
  exact C6_completed_phase_frozen [(5, WOOp.cancelOrder), (6, WOOp.advance)] completedWO rfl

/-! ### C7 -/

/-- Counterexample to C7 as stated: on empty stock with a single piece
of length 1000 (exactly a standard length, so leftover 0 < 50mm), the
synthesized suggestion has `isOptimal = false` although its leftover is
below `MIN_USABLE_LENGTH` — the claimed iff fails for synthesized
rails. -/
theorem C7_counterexample :
    ¬(∀ s ∈ (generateMaterialPlan plan1000 []).suggestions,
      s.isOptimal = true ↔
        (s.sourceRail.isRemainder = true ∨
          s.sourceRail.length - s.piece.length < MIN_USABLE_LENGTH)) := by
  decide

/-- C7 (amended): for suggestions allocated from the pool by
`findBestRailForPiece`, `isOptimal` is true iff the source rail is a
remainder or the leftover is below `MIN_USABLE_LENGTH`; suggestions for
synthesized new rails always carry `isOptimal = false` (even near-exact
ones), so over all of `generateMaterialPlan`'s output only the forward
implication (`isOptimal` → remainder or near-exact) holds. -/
theorem C7_isOptimal_characterization :
    (∀ inv piece s, findBestRailForPiece inv piece = some s →
      (s.isOptimal = true ↔
        (s.sourceRail.isRemainder = true ∨
          s.sourceRail.length - s.piece.length < MIN_USABLE_LENGTH))) ∧
    (∀ nid piece, (synthSuggestion nid piece).isOptimal = false) ∧
    (∀ plan inv, ∀ s ∈ (generateMaterialPlan plan inv).suggestions,
      s.isOptimal = true →
        (s.sourceRail.isRemainder = true ∨
          s.sourceRail.length - s.piece.length < MIN_USABLE_LENGTH)) := by
  have hsome : ∀ inv piece s, findBestRailForPiece inv piece = some s →
      (s.isOptimal = true ↔
        (s.sourceRail.isRemainder = true ∨
          s.sourceRail.length - s.piece.length < MIN_USABLE_LENGTH)) := by
    intro inv piece s h
    obtain ⟨hp, _, _, hio⟩ := findBest_some_fields h
    rw [hp, hio]
    simp
  refine ⟨hsome, fun nid piece => rfl, ?_⟩
  intro plan inv s hs
  rw [generateMaterialPlan_suggestions_eq] at hs
  refine foldl_allocStep_suggestions_inv
    (fun t => t.isOptimal = true →
      (t.sourceRail.isRemainder = true ∨
        t.sourceRail.length - t.piece.length < MIN_USABLE_LENGTH))
    (fun inv piece t ht => (hsome inv piece t ht).mp)
    (fun nid piece hopt => absurd hopt (by simp [synthSuggestion]))
    _ _ (by simp) s hs

/-- Witness for C7 (amended): the iff instantiated on the remainder-rail
suggestion for `piece500`, and the forward implication on the 1500mm
empty-stock run. -/
theorem C7_witness :
    (suggestion500.isOptimal = true ↔
      (suggestion500.sourceRail.isRemainder = true ∨
        suggestion500.sourceRail.length - suggestion500.piece.length < MIN_USABLE_LENGTH)) ∧
    (∀ s ∈ (generateMaterialPlan plan1500 []).suggestions,
      s.isOptimal = true →
        (s.sourceRail.isRemainder = true ∨
          s.sourceRail.length - s.piece.length < MIN_USABLE_LENGTH)) := by
  constructor
  · exact C7_isOptimal_characterization.1 [railExact, railRem] piece500 suggestion500 (by decide)
  · exact C7_isOptimal_characterization.2.2 plan1500 []

/-! ### C8 -/

lemma copyRail_eq (r : Rail) : copyRail r = r := rfl

lemma allocStep_caller (st : AllocState) (piece : CutPiece) :
    (allocStep st piece).callerInventory = st.callerInventory := by
  cases hf : findBestRailForPiece st.workingInventory piece <;>
    simp [allocStep, hf]

lemma foldl_allocStep_caller (pieces : List CutPiece) (st : AllocState) :
    (pieces.foldl allocStep st).callerInventory = st.callerInventory := by
  induction pieces generalizing st with
  | nil => rfl
  | cons p rest ih =>
    rw [List.foldl_cons, ih, allocStep_caller]

/-- C8: `generateMaterialPlan` never touches the caller's inventory:
the working pool is initialized as an element-wise copy (equal to the
input), every mutation of the loop targets only the working pool, and
the caller's pool carried through the whole allocation run is returned
exactly as it was passed in. -/
theorem C8_caller_inventory_untouched (plan : FusionBoxPlan) (inventory : List Rail) :
    (generateMaterialPlanState plan inventory).callerInventory = inventory ∧
    inventory.map copyRail = inventory := by
  constructor
  · unfold generateMaterialPlanState
    rw [foldl_allocStep_caller]
  · induction inventory with
    | nil => rfl
    | cons r rest ih => rw [List.map_cons, copyRail_eq, ih]

/-! ### C9 -/

lemma find?_id_eq_of_nodup {pool : List Rail} {rail : Rail} (hmem : rail ∈ pool)
    (hnodup : (pool.map Rail.id).Nodup) :
    pool.find? (fun r => r.id == rail.id) = some rail := by
  induction pool with
  | nil => cases hmem
  | cons h t ih =>
    rw [List.map_cons, List.nodup_cons] at hnodup
    rcases List.mem_cons.mp hmem with rfl | hmem'
    · rw [List.find?_cons_of_pos _ (by simp)]
    · have hne : h.id ≠ rail.id := by
        intro he
        exact hnodup.1 (he ▸ List.mem_map_of_mem Rail.id hmem')
      rw [List.find?_cons_of_neg _ (by simp [hne])]
      exact ih hmem' hnodup.2

/-- C9: for a rail in the live pool (ids distinct) and
`0 < cutLength ≤ rail.length`, a strictly positive leftover makes
`cutRail` replace the rail by a single remainder rail of the leftover
length with `isRemainder = true` and `originalRailId = rail.id` —
keeping the leftover even when it is below the 50mm usable threshold —
and return that remainder; a zero leftover removes the rail and returns
none; every other pool entry is kept. -/
theorem C9_cutRail_success (pool : List Rail) (rail : Rail) (cutLength : Int)
    (freshId now : Nat) (purpose : Option String)
    (hmem : rail ∈ pool) (hnodup : (pool.map Rail.id).Nodup)
    (hpos : 0 < cutLength) (hle : cutLength ≤ rail.length) :
    (0 < rail.length - cutLength →
      cutRail freshId now pool rail.id cutLength purpose =
        (pool.filter (fun r => r.id != rail.id) ++
          [mkCutRemainder freshId now rail cutLength purpose],
         some (mkCutRemainder freshId now rail cutLength purpose)) ∧
      (mkCutRemainder freshId now rail cutLength purpose).length =
        rail.length - cutLength ∧
      (mkCutRemainder freshId now rail cutLength purpose).isRemainder = true ∧
      (mkCutRemainder freshId now rail cutLength purpose).originalRailId =
        some rail.id) ∧
    (rail.length - cutLength = 0 →
      cutRail freshId now pool rail.id cutLength purpose =
        (pool.filter (fun r => r.id != rail.id), none)) ∧
    (∀ r ∈ pool, r.id ≠ rail.id →
      r ∈ (cutRail freshId now pool rail.id cutLength purpose).1) := by
  have hnlt : ¬(rail.length < cutLength) := by omega
  have hfind := find?_id_eq_of_nodup hmem hnodup
  refine ⟨?_, ?_, ?_⟩
  · intro hrem
    refine ⟨?_, rfl, rfl, rfl⟩
    simp only [cutRail, hfind]
    rw [if_neg hnlt, if_pos hrem]
  · intro hz
    simp only [cutRail, hfind]
    rw [if_neg hnlt, if_neg (by omega)]
  · intro r hr hne
    have hrfilter : r ∈ pool.filter (fun x => x.id != rail.id) :=
      List.mem_filter.mpr ⟨hr, by simp [hne]⟩
    by_cases hrem : 0 < rail.length - cutLength
    · have heq : (cutRail freshId now pool rail.id cutLength purpose).1 =
          pool.filter (fun x => x.id != rail.id) ++
            [mkCutRemainder freshId now rail cutLength purpose] := by
        simp only [cutRail, hfind]
        rw [if_neg hnlt, if_pos hrem]
      rw [heq]
      exact List.mem_append_left _ hrfilter
    · have heq : (cutRail freshId now pool rail.id cutLength purpose).1 =
          pool.filter (fun x => x.id != rail.id) := by
        simp only [cutRail, hfind]
        rw [if_neg hnlt, if_neg hrem]
      rw [heq]
      exact hrfilter

/-- Witness for C9: cutting 100mm from the 110mm rail replaces it by a
10mm remainder — a leftover strictly below the 50mm usable threshold is
still kept — and returns that remainder. -/
theorem C9_witness :
    cutRail 99 7 [rail110] rail110.id 100 none =
      ([mkCutRemainder 99 7 rail110 100 none],
       some (mkCutRemainder 99 7 rail110 100 none)) ∧
    (mkCutRemainder 99 7 rail110 100 none).length = 10 ∧
    (mkCutRemainder 99 7 rail110 100 none).isRemainder = true := by
  have h := (C9_cutRail_success [rail110] rail110 100 99 7 none
    (by decide) (by decide) (by decide) (by decide)).1 (by decide)
  refine ⟨?_, by decide, h.2.2.1⟩
  have := h.1
  simpa using this

/-! ### C10 -/

lemma set_getElem?_self {α : Type} {l : List α} {i : Nat} {a : α}
    (h : l[i]? = some a) : l.set i a = l := by
  apply List.ext_getElem?
  intro n
  rw [List.getElem?_set]
  by_cases hin : i = n
  · subst hin
    have hlt : i < l.length := by
      rcases List.getElem?_eq_some.mp h with ⟨hl, _⟩
      exact hl
    rw [if_pos rfl, if_pos hlt, h]
  · rw [if_neg hin]

lemma consumeRail_set {wi : List Rail} {s : CutSuggestion} {i : Nat} {old : Rail}
    (hidx : wi.findIdx? (fun r => r.id == s.sourceRail.id) = some i)
    (hold : wi[i]? = some old)
    (hrem : MIN_USABLE_LENGTH ≤ s.remainderLength) :
    consumeRail wi s =
      wi.set i { old with
                 length := s.remainderLength
                 isRemainder := true
                 originalRailId := some s.sourceRail.id } := by
  simp only [consumeRail, hidx, hold, if_pos hrem]

lemma allocStep_working_of_some {st : AllocState} {piece : CutPiece}
    {s : CutSuggestion}
    (hf : findBestRailForPiece st.workingInventory piece = some s) :
    (allocStep st piece).workingInventory = consumeRail st.workingInventory s := by
  simp only [allocStep, hf]

lemma insertGatheringStep_perm (g : GatheringStep) (l : List GatheringStep) :
    (insertGatheringStep g l).Perm (g :: l) := by
  induction l with
  | nil => exact List.Perm.refl _
  | cons h t ih =>
    unfold insertGatheringStep
    by_cases hb : gatherBefore g h = true
    · rw [if_pos hb]
    · rw [if_neg hb]
      exact (List.Perm.cons h ih).trans (List.Perm.swap g h t)

lemma sortGatheringSteps_perm (l : List GatheringStep) :
    (sortGatheringSteps l).Perm l := by
  induction l with
  | nil => exact List.Perm.refl _
  | cons g t ih =>
    unfold sortGatheringSteps at *
    rw [List.foldr_cons]
    exact (insertGatheringStep_perm g (t.foldr insertGatheringStep [])).trans
      (List.Perm.cons g ih)

lemma gatherLoop_countP (rid : Nat) :
    ∀ (sugg : List CutSuggestion) (acc : List GatheringStep) (nid : Nat),
    (gatherLoop sugg acc nid).1.countP (fun g => g.sourceRailId == rid) =
      acc.countP (fun g => g.sourceRailId == rid) +
        (if acc.any (fun g => g.sourceRailId == rid) = true then 0
         else if sugg.any (fun s => s.sourceRail.id == rid) = true then 1 else 0) := by
  intro sugg
  induction sugg with
  | nil =>
    intro acc nid
    simp [gatherLoop]
  | cons s rest ih =>
    intro acc nid
    unfold gatherLoop
    by_cases hdup : acc.any (fun x => x.sourceRailId == s.sourceRail.id) = true
    · rw [if_pos hdup, ih]
      congr 1
      by_cases hacc : acc.any (fun g => g.sourceRailId == rid) = true
      · rw [if_pos hacc, if_pos hacc]
      · rw [if_neg hacc, if_neg hacc]
        have hps : (s.sourceRail.id == rid) = false := by
          by_contra hne
          simp only [Bool.not_eq_false, beq_iff_eq] at hne
          subst hne
          exact hacc hdup
        rw [List.any_cons, hps, Bool.false_or]
    · rw [if_neg hdup, ih]
      simp only [Bool.not_eq_true] at hdup
      rw [List.countP_append, List.any_append]
      have hstep : (fun g => g.sourceRailId == rid) (mkGatheringStep nid s) =
          (s.sourceRail.id == rid) := rfl
      by_cases hps : (s.sourceRail.id == rid) = true
      · simp only [beq_iff_eq] at hps
        subst hps
        have hacc : acc.any (fun g => g.sourceRailId == s.sourceRail.id) = false := hdup
        rw [List.countP_cons, List.countP_nil]
        simp only [hstep, List.any_cons, List.any_nil]
        rw [hacc]
        simp
      · simp only [Bool.not_eq_true] at hps
        rw [List.countP_cons, List.countP_nil]
        have hmkpg : ((fun g => g.sourceRailId == rid) (mkGatheringStep nid s)) = false := by
          simpa [mkGatheringStep] using hps
        simp [hmkpg, hps, List.any_cons]

lemma gatherLoop_first_use (L : List CutSuggestion) :
    ∀ (rest pre : List CutSuggestion) (acc : List GatheringStep) (nid : Nat),
    L = pre ++ rest →
    (∀ rid : Nat, acc.any (fun g => g.sourceRailId == rid) =
      pre.any (fun s => s.sourceRail.id == rid)) →
    (∀ g ∈ acc, ∃ s, L.find? (fun t => t.sourceRail.id == g.sourceRailId) = some s ∧
      g.length = s.sourceRail.length ∧ g.isRemainder = s.sourceRail.isRemainder) →
    ∀ g ∈ (gatherLoop rest acc nid).1, ∃ s,
      L.find? (fun t => t.sourceRail.id == g.sourceRailId) = some s ∧
      g.length = s.sourceRail.length ∧ g.isRemainder = s.sourceRail.isRemainder := by
  intro rest
  induction rest with
  | nil =>
    intro pre acc nid hL hany hinv g hg
    exact hinv g hg
  | cons s rest ih =>
    intro pre acc nid hL hany hinv g hg
    unfold gatherLoop at hg
    by_cases hdup : acc.any (fun x => x.sourceRailId == s.sourceRail.id) = true
    · rw [if_pos hdup] at hg
      refine ih (pre ++ [s]) acc nid ?_ ?_ hinv g hg
      · rw [hL, List.append_assoc]
        rfl
      · intro rid
        rw [List.any_append, hany rid]
        by_cases hps : (s.sourceRail.id == rid) = true
        · simp only [beq_iff_eq] at hps
          subst hps
          have := hany s.sourceRail.id
          rw [this] at hdup
          simp [hdup]
        · simp only [Bool.not_eq_true] at hps
          simp [hps]
    · rw [if_neg hdup] at hg
      simp only [Bool.not_eq_true] at hdup
      refine ih (pre ++ [s]) (acc ++ [mkGatheringStep nid s]) (nid + 1) ?_ ?_ ?_ g hg
      · rw [hL, List.append_assoc]
        rfl
      · intro rid
        rw [List.any_append, List.any_append, hany rid]
        have hstep : (fun g => g.sourceRailId == rid) (mkGatheringStep nid s) =
            (s.sourceRail.id == rid) := rfl
        simp only [List.any_cons, List.any_nil, hstep]
      · intro g hgmem
        rcases List.mem_append.mp hgmem with hgacc | hgnew
        · exact hinv g hgacc
        · simp only [List.mem_singleton] at hgnew
          subst hgnew
          have hgsr : (mkGatheringStep nid s).sourceRailId = s.sourceRail.id := rfl
          rw [hgsr]
          refine ⟨s, ?_, rfl, rfl⟩
          have hpre : pre.find? (fun t => t.sourceRail.id == s.sourceRail.id) = none := by
            have hpreany : pre.any (fun t => t.sourceRail.id == s.sourceRail.id) = false :=
              (hany s.sourceRail.id).symm.trans hdup
            rw [List.find?_eq_none]
            exact List.any_eq_false.mp hpreany
          rw [hL, List.find?_append, hpre, Option.none_or]
          rw [List.find?_cons_of_pos _ (by simp)]

lemma generateGatheringSteps_countP (mp : MaterialPlan) (rid : Nat) :
    (generateGatheringSteps mp).countP (fun g => g.sourceRailId == rid) =
      (if mp.suggestions.any (fun s => s.sourceRail.id == rid) = true then 1 else 0) := by
  unfold generateGatheringSteps
  rw [(sortGatheringSteps_perm _).countP_eq]
  rw [gatherLoop_countP rid mp.suggestions [] 0]
  simp

lemma generateGatheringSteps_first_use (mp : MaterialPlan) :
    ∀ g ∈ generateGatheringSteps mp, ∃ s,
      mp.suggestions.find? (fun t => t.sourceRail.id == g.sourceRailId) = some s ∧
      g.length = s.sourceRail.length ∧ g.isRemainder = s.sourceRail.isRemainder := by
  intro g hg
  unfold generateGatheringSteps at hg
  rw [(sortGatheringSteps_perm _).mem_iff] at hg
  exact gatherLoop_first_use mp.suggestions mp.suggestions [] [] 0 rfl
    (by intro rid; simp) (by intro g hg; cases hg) g hg

/-- C10: when the allocation loop consumes a working-pool rail leaving
a usable remainder, the pool entry is replaced in place keeping the
consumed rail's id (only length, isRemainder and originalRailId change,
every other entry and the id sequence are untouched), so successive
pieces cut from one original rail all carry the same `sourceRail.id`;
and `generateGatheringSteps` emits exactly one gathering step per
distinct `sourceRail.id` among the snapshot's suggestions, whose length
(and remainder flag) are those of the rail at its first use. -/
theorem C10_remainder_chain_single_gathering_step :
    (∀ (st : AllocState) (piece : CutPiece) (s : CutSuggestion) (i : Nat) (old : Rail),
      findBestRailForPiece st.workingInventory piece = some s →
      MIN_USABLE_LENGTH ≤ s.remainderLength →
      st.workingInventory.findIdx? (fun r => r.id == s.sourceRail.id) = some i →
      st.workingInventory[i]? = some old →
      ((allocStep st piece).workingInventory.map Rail.id =
          st.workingInventory.map Rail.id ∧
        (allocStep st piece).workingInventory[i]? =
          some { old with
                 length := s.remainderLength
                 isRemainder := true
                 originalRailId := some s.sourceRail.id } ∧
        ∀ j, j ≠ i →
          (allocStep st piece).workingInventory[j]? = st.workingInventory[j]?)) ∧
    (∀ mp : MaterialPlan,
      (∀ rid : Nat,
        (generateGatheringSteps mp).countP (fun g => g.sourceRailId == rid) =
          (if mp.suggestions.any (fun s => s.sourceRail.id == rid) = true
           then 1 else 0)) ∧
      (∀ g ∈ generateGatheringSteps mp, ∃ s,
        mp.suggestions.find? (fun t => t.sourceRail.id == g.sourceRailId) = some s ∧
        g.length = s.sourceRail.length ∧ g.isRemainder = s.sourceRail.isRemainder)) := by
  constructor
  · intro st piece s i old hf hrem hidx hold
    have hlt : i < st.workingInventory.length := by
      rcases List.getElem?_eq_some.mp hold with ⟨hl, _⟩
      exact hl
    rw [allocStep_working_of_some hf, consumeRail_set hidx hold hrem]
    refine ⟨?_, ?_, ?_⟩
    · rw [List.map_set]
      exact set_getElem?_self (by rw [List.getElem?_map, hold]; rfl)
    · exact List.getElem?_set_eq_of_lt _ hlt
    · intro j hj
      exact List.getElem?_set_ne (fun he => hj he.symm)
  · intro mp
    exact ⟨generateGatheringSteps_countP mp, generateGatheringSteps_first_use mp⟩

/-- Witness for C10: after `piece500` consumes 500mm of the 800mm
remainder rail in a one-rail working pool, the pool entry keeps id 2 at
index 0 with length 300; and the gathering steps of the 1500mm
empty-stock run are exactly one step for the synthesized rail's id. -/
theorem C10_witness :
    (allocStep
        { callerInventory := [railRem], workingInventory := [railRem],
          suggestions := [], totalWaste := 0, usedRemainders := 0,
          newRailsNeeded := 0, nextId := 3 } piece500).workingInventory[0]? =
      some { railRem with
             length := 300
             isRemainder := true
             originalRailId := some railRem.id } ∧
    ((generateMaterialPlan plan1500 []).suggestions.any
        (fun s => s.sourceRail.id == 2) = true →
      (generateGatheringSteps (generateMaterialPlan plan1500 [])).countP
        (fun g => g.sourceRailId == 2) = 1) := by
  constructor
  · exact (C10_remainder_chain_single_gathering_step.1
      { callerInventory := [railRem], workingInventory := [railRem],
        suggestions := [], totalWaste := 0, usedRemainders := 0,
        newRailsNeeded := 0, nextId := 3 }
      piece500
      { sourceRail := railRem, piece := piece500, remainderLength := 300,
        waste := 0, isOptimal := true }
      0 railRem (by decide) (by decide) (by decide) (by decide)).2.1
  · intro hany
    rw [(C10_remainder_chain_single_gathering_step.2
      (generateMaterialPlan plan1500 [])).1 2, if_pos hany]
